import Mathlib

/-!
Shallow embedding of the autodE repository sources (autode/molecule.py and the
Reaction behaviour exercised by tests/test_reaction_class.py) together with
proofs of the specification claims about them.

Conventions of the embedding:
* machine floats carrying energies and coordinates become `Rat`;
* a networkx graph becomes an explicit list of edges, each edge carrying its
  two endpoint atom indices and the optional boolean attribute `active`
  (absent in Python is modelled as `false`);
* Python `None` states become `Option`;
* a fatal `exit()` becomes `Option`-valued failure (`none`);
* functions of modules that are not among the sources (autode.mol_graphs,
  autode.geom, autode.conformers, autode.constants) are taken as explicit
  function parameters, so every theorem quantifies over them.
-/

namespace AutodE

/-- One xyz line as used throughout molecule.py: an atom label and three
coordinates. -/
abbrev Xyz : Type := String × Rat × Rat × Rat

/-- An edge of the molecular graph: the two endpoint atom indices and the
`active` attribute (a networkx edge with no `active` key is modelled with
`active := false`). -/
structure Edge where
  u : Nat
  v : Nat
  active : Bool
deriving Repr, DecidableEq

/-- The molecular graph, nodes being atom indices: a list of edges, as
iterated by `graph.edges()` in molecule.py. -/
structure Graph where
  edges : List Edge
deriving Repr, DecidableEq

/-- networkx `number_of_edges()`. -/
def Graph.number_of_edges (g : Graph) : Nat := g.edges.length

/-- The endpoint pairs of the graph, in edge order: the Python view
`[pair for pair in self.graph.edges()]`. -/
def Graph.edge_pairs (g : Graph) : List (Nat × Nat) :=
  g.edges.map (fun e => (e.u, e.v))

/-- Modelled from the spec: a Conformer (autode/conformers/conformers.py is
not among the sources): a lightweight Molecule-like entity sharing
name/solvent/charge/multiplicity with its parent and carrying only its own
geometry and energy; the energy is unassigned (`none`) until a calculation
has run. -/
structure Conformer where
  name : String
  xyzs : List Xyz
  solvent : Option String
  charge : Int
  mult : Nat
  energy : Option Rat
deriving Repr, DecidableEq

/-- The Hartree value of a conformer's energy, defaulting to 0 when the
energy is unassigned; molecule.py reads `conformer.energy` only after the
energies have been populated, so the default is never observable under the
spec's precondition. -/
def Conformer.e (c : Conformer) : Rat := c.energy.getD 0

/-- The Molecule state of molecule.py: the attributes set in `__init__` and
mutated by the methods.  The distance matrix is whatever
`geom.calc_distance_matrix` (not among the sources) returns; a list of rows
of rationals. -/
structure Molecule where
  name : String
  solvent : Option String
  charge : Int
  mult : Nat
  xyzs : List Xyz
  energy : Option Rat
  n_atoms : Nat
  n_bonds : Nat
  conformers : List Conformer
  n_conformers : Nat
  rdkit_conf_gen_is_fine : Bool
  graph : Graph
  distance_matrix : List (List Rat)
deriving Repr, DecidableEq

/-- Molecule._calc_multiplicity: returns 2 for a single radical electron and
otherwise the molecule's preset multiplicity (diradicals only produce a log
warning). -/
def Molecule.calc_multiplicity (m : Molecule) (n_radical_electrons : Nat) : Nat :=
  if n_radical_electrons = 1 then 2 else m.mult

/-- Molecule.set_xyzs: stores the new coordinates and recomputes the distance
matrix, the graph and the bond count from them in the same call.  The
external functions `mol_graphs.make_graph` and `geom.calc_distance_matrix`
are parameters. -/
def Molecule.set_xyzs
    (make_graph : List Xyz → Nat → Graph)
    (calc_distance_matrix : List Xyz → List (List Rat))
    (m : Molecule) (xyzs : List Xyz) : Molecule :=
  let g := make_graph xyzs m.n_atoms
  { m with
    xyzs := xyzs
    distance_matrix := calc_distance_matrix xyzs
    graph := g
    n_bonds := g.number_of_edges }

/-- Molecule.get_possible_forming_bonds: all index pairs (i, j) with i < j
over `range(self.n_atoms)` such that neither orientation is an edge of the
graph. -/
def Molecule.get_possible_forming_bonds (m : Molecule) : List (Nat × Nat) :=
  let curr_bonds := m.graph.edge_pairs
  (List.range m.n_atoms).flatMap (fun i =>
    ((List.range m.n_atoms).filter (fun j =>
      decide (i < j ∧ (i, j) ∉ curr_bonds ∧ (j, i) ∉ curr_bonds))).map (fun j => (i, j)))

/-- Molecule.get_possible_breaking_bonds: the list of the graph's edge
pairs. -/
def Molecule.get_possible_breaking_bonds (m : Molecule) : List (Nat × Nat) :=
  m.graph.edge_pairs

end AutodE

namespace AutodE

/-- A claim instance: a molecule value usable as a concrete input.  The graph
has the single geometric bond (0, 1) between its two atoms. -/
def exampleMol : Molecule :=
  { name := "h2"
    solvent := none
    charge := 0
    mult := 1
    xyzs := [("H", 0, 0, 0), ("H", 1, 0, 0)]
    energy := none
    n_atoms := 2
    n_bonds := 1
    conformers := []
    n_conformers := 0
    rdkit_conf_gen_is_fine := true
    graph := { edges := [{ u := 0, v := 1, active := false }] }
    distance_matrix := [] }

/-- The open-window test of strip_non_unique_confs, line 115 of molecule.py:
`conformers[i].energy - d_e < conformers[j].energy < conformers[i].energy + d_e`
with `a` the scanned conformer's energy and `b` an already-retained one's. -/
def in_energy_window (d a b : Rat) : Bool :=
  decide (a - d < b) && decide (b < a + d)

/-- One step of the scan of strip_non_unique_confs: the inner loop runs
`for j in range(len(unique_conformers))` but reads `self.conformers[j]`, so
the scanned conformer `c` is compared against the PREFIX of the original
conformer list of the retained list's length, not against the retained
conformers themselves; `c` is appended exactly when its energy falls in no
window of that prefix (the `unique` flag, with `break` on the first hit). -/
def strip_step (d : Rat) (conformers : List Conformer)
    (kept : List Conformer) (c : Conformer) : List Conformer :=
  if (conformers.take kept.length).all (fun k => ! in_energy_window d c.e k.e) then
    kept ++ [c]
  else kept

/-- The list-level core of Molecule.strip_non_unique_confs: the first
conformer is retained unconditionally, then the remaining conformers are
scanned in input order, each compared against the original-list prefix as in
strip_step.  On the empty list the Python indexing `self.conformers[0]`
would raise; the claims only concern non-empty lists. -/
def strip_confs (ha2kJmol : Rat) (energy_threshold_kj : Rat) :
    List Conformer → List Conformer
  | [] => []
  | c0 :: rest =>
    rest.foldl (strip_step (energy_threshold_kj / ha2kJmol) (c0 :: rest)) [c0]

/-- Molecule.strip_non_unique_confs: replaces the conformer list by the
retained ones and updates n_conformers to their number.  The constant
`Constants.ha2kJmol` (autode/constants.py is not among the sources) is a
parameter. -/
def Molecule.strip_non_unique_confs
    (ha2kJmol : Rat) (energy_threshold_kj : Rat) (m : Molecule) : Molecule :=
  let u := strip_confs ha2kJmol energy_threshold_kj m.conformers
  { m with conformers := u, n_conformers := u.length }

/-- Reference definition following the claim's words for C1: retain the
first energy, then scan the remaining energies in order and retain one if
and only if it differs from every already-retained energy by at least the
threshold `d`. -/
def greedy_retained (d : Rat) : List Rat → List Rat → List Rat
  | kept, [] => kept
  | kept, x :: xs =>
    if kept.all (fun k => decide (d ≤ |x - k|)) then
      greedy_retained d (kept ++ [x]) xs
    else
      greedy_retained d kept xs

/-- A conformer carrying only an assigned energy, for concrete instances of
the deduplication claims. -/
def confE (q : Rat) : Conformer :=
  { name := "conf", xyzs := [], solvent := none, charge := 0, mult := 1,
    energy := some q }

/-- Does the edge `e` coincide with the bond `b` up to orientation?  The
test `edge == bond or edge == tuple(reversed(bond))` of
Molecule.get_active_mol_graph. -/
def edgeMatches (e : Edge) (b : Nat × Nat) : Bool :=
  decide ((e.u, e.v) = b) || decide ((e.u, e.v) = (b.2, b.1))

/-- Processing of one bond by Molecule.get_active_mol_graph: every edge
coinciding with the bond in either orientation gets `active := true`; when
no edge coincides, a fresh edge carrying the bond's endpoints with
`active := true` is appended. -/
def markBond (es : List Edge) (b : Nat × Nat) : List Edge :=
  if es.any (fun e => edgeMatches e b) then
    es.map (fun e => if edgeMatches e b then { e with active := true } else e)
  else
    es ++ [{ u := b.1, v := b.2, active := true }]

/-- Molecule.get_active_mol_graph: works on a copy of the molecule's graph
(the molecule itself is not modified) and processes the supplied active
bonds in order. -/
def Molecule.get_active_mol_graph (m : Molecule) (active_bonds : List (Nat × Nat)) : Graph :=
  { edges := active_bonds.foldl markBond m.graph.edges }

/-- Endpoint preservation with monotone `active` flags: the relation between
an original edge and its processed version; the endpoints are unchanged and
an `active` flag is never cleared. -/
def edgeMono (e f : Edge) : Prop :=
  f.u = e.u ∧ f.v = e.v ∧ (e.active = true → f.active = true)

/-- How an edge list evolves under markBond: a front part refining the
original edges pointwise (same endpoints, `active` only ever raised) is
followed by appended edges which are all active. -/
def evolves (es fs : List Edge) : Prop :=
  ∃ front ext, fs = front ++ ext ∧ List.Forall₂ edgeMono es front ∧
    ∀ e ∈ ext, e.active = true

/-- The conformers built by the loop of Molecule.generate_conformers: one
Conformer per generated coordinate set, named `<name>_conf<i>` and sharing
the molecule's solvent, charge and multiplicity, with no energy yet. -/
def conformers_from_xyzs (m : Molecule) (conf_xyzs : List (List Xyz)) : List Conformer :=
  (List.range conf_xyzs.length).map (fun i =>
    { name := m.name ++ "_conf" ++ toString i
      xyzs := conf_xyzs.getD i []
      solvent := m.solvent
      charge := m.charge
      mult := m.mult
      energy := none })

/-- Molecule.generate_conformers: the coordinate sets come from the
deduplicated rdkit embeddings when `rdkit_conf_gen_is_fine` holds and from
the simulated-annealing generator driven by the rdkit bond list otherwise;
both external generators (autode/conformers is not among the sources) are
parameters.  Each coordinate set becomes one Conformer and n_conformers is
set to their number. -/
def Molecule.generate_conformers
    (rdkit_conf_xyzs : List (List Xyz)) (simanl_conf_xyzs : List (List Xyz))
    (m : Molecule) : Molecule :=
  let conf_xyzs := if m.rdkit_conf_gen_is_fine then rdkit_conf_xyzs else simanl_conf_xyzs
  let confs := conformers_from_xyzs m conf_xyzs
  { m with conformers := confs, n_conformers := confs.length }

/-- Molecule._check_rdkit_graph_agreement: asserts that the declared bond
count equals the number of edges of the graph; on mismatch the Python code
logs and calls a process exit, modelled as `none`. -/
def check_rdkit_graph_agreement (n_bonds : Nat) (g : Graph) : Option Unit :=
  if n_bonds = g.number_of_edges then some () else none

/-- The graph-building tail of Molecule._init_smiles, after the rdkit
embedding produced `m.xyzs` and `m.n_bonds` (from the rdkit bond list): when
the embedding is judged reasonable, the graph is built from the geometry and
checked against the declared bond count, a mismatch being fatal (`none`);
otherwise the simulated-annealing coordinates replace the geometry and both
the graph and the bond count are rebuilt from them.  The external functions
are parameters. -/
def init_smiles_graph_step
    (make_graph : List Xyz → Nat → Graph)
    (calc_distance_matrix : List Xyz → List (List Rat))
    (geometries_reasonable : Bool) (simanl_xyzs : List Xyz)
    (m : Molecule) : Option Molecule :=
  if geometries_reasonable then
    let g := make_graph m.xyzs m.n_atoms
    match check_rdkit_graph_agreement m.n_bonds g with
    | some _ => some { m with graph := g, distance_matrix := calc_distance_matrix m.xyzs }
    | none => none
  else
    let g := make_graph simanl_xyzs m.n_atoms
    some { m with
           rdkit_conf_gen_is_fine := false
           xyzs := simanl_xyzs
           graph := g
           n_bonds := g.number_of_edges
           distance_matrix := calc_distance_matrix simanl_xyzs }

end AutodE

namespace AutodE

/-- Modelled from the spec: the Molecule data a Reaction needs
(autode/reaction.py is not among the sources, only its tests): identity,
total charge, atom-label composition, solvent, bond count of the molecular
graph, and the optional energy in Hartree. -/
structure RMol where
  name : String
  charge : Int
  atoms : List String
  solvent : Option String
  n_bonds : Nat
  energy : Option Rat
deriving Repr, DecidableEq

/-- Modelled from the spec: the error taxonomy of Reaction construction. -/
inductive RxnError where
  | unbalancedReaction
  | solventsDontMatch
deriving Repr, DecidableEq

/-- Total charge of a side of the reaction. -/
def totalCharge (ms : List RMol) : Int := (ms.map RMol.charge).sum

/-- Atom multiset of a side of the reaction. -/
def totalAtoms (ms : List RMol) : Multiset String :=
  (ms.map (fun m => (m.atoms : Multiset String))).sum

/-- Total bond count over the graphs of a side of the reaction. -/
def totalBonds (ms : List RMol) : Nat := (ms.map RMol.n_bonds).sum

/-- Modelled from the spec: the solvent-consistency validation, true when
the solvents of all the given molecules agree. -/
def solventsMatch : List RMol → Bool
  | [] => true
  | m :: rest => rest.all (fun x => decide (x.solvent = m.solvent))

/-- Modelled from the spec: a constructed Reaction exposing the reacs and
prods accessors. -/
structure Reaction where
  reacs : List RMol
  prods : List RMol
deriving Repr, DecidableEq

/-- Modelled from the spec: Reaction construction.  It first validates
charge and atom-multiset balance (UnbalancedReaction on mismatch) and
solvent consistency (SolventsDontMatch), then compares total bond counts of
the two sides and swaps the reactant and product roles when the products
have strictly more bonds; the accessors keep that orientation for the life
of the object. -/
def mkReaction (reacs prods : List RMol) : Except RxnError Reaction :=
  if totalCharge reacs ≠ totalCharge prods ∨ totalAtoms reacs ≠ totalAtoms prods then
    .error .unbalancedReaction
  else if ¬ solventsMatch (reacs ++ prods) = true then
    .error .solventsDontMatch
  else if totalBonds reacs < totalBonds prods then
    .ok { reacs := prods, prods := reacs }
  else
    .ok { reacs := reacs, prods := prods }

/-- Modelled from the spec: the sum of the energies of a side, defined when
every molecule of the side has an assigned energy. -/
def sumEnergies : List RMol → Option Rat
  | [] => some 0
  | m :: rest =>
    match m.energy, sumEnergies rest with
    | some e, some s => some (e + s)
    | _, _ => none

/-- Modelled from the spec: Reaction.calc_delta_e, the sum of the product
energies minus the sum of the reactant energies, in Hartree (any
kcal/kJ conversion is applied by callers at presentation time only). -/
def calc_delta_e (r : Reaction) : Option Rat :=
  match sumEnergies r.prods, sumEnergies r.reacs with
  | some p, some q => some (p - q)
  | _, _ => none

/-- Concrete reactant molecules for the claim instances: a hydrogen atom at
a given energy. -/
def hAtom (q : Rat) : RMol :=
  { name := "h", charge := 0, atoms := ["H"], solvent := none, n_bonds := 0,
    energy := some q }

/-- Concrete product molecule for the claim instances: a hydrogen molecule
with one bond at a given energy. -/
def hhMol (q : Rat) : RMol :=
  { name := "hh", charge := 0, atoms := ["H", "H"], solvent := none, n_bonds := 1,
    energy := some q }

/-- Concrete instance from test_check_rearrangement: linear H3, zero bonds as
modelled. -/
def linH3 : RMol :=
  { name := "h3_linear", charge := 0, atoms := ["H", "H", "H"], solvent := none,
    n_bonds := 0, energy := none }

/-- Concrete instance from test_check_rearrangement: trigonal H3 with bonds
added by the graph builder. -/
def trigH3 : RMol :=
  { name := "h3_trigonal", charge := 0, atoms := ["H", "H", "H"], solvent := none,
    n_bonds := 3, energy := none }

end AutodE

namespace AutodE

/-- C9: Molecule._calc_multiplicity returns 2 exactly when the radical
electron count is 1 and otherwise (0, or more than 1) returns the preset
multiplicity unchanged. -/
theorem calc_multiplicity_spec (m : Molecule) (n : Nat) :
    (n = 1 → m.calc_multiplicity n = 2) ∧
    (n ≠ 1 → m.calc_multiplicity n = m.mult) := by
  constructor
  · intro h
    simp [Molecule.calc_multiplicity, h]
  · intro h
    simp [Molecule.calc_multiplicity, h]

/-- Witness for C9 at a concrete diradical count and at the radical count. -/
theorem calc_multiplicity_spec_witness :
    exampleMol.calc_multiplicity 2 = exampleMol.mult ∧
    exampleMol.calc_multiplicity 1 = 2 :=
  ⟨(calc_multiplicity_spec exampleMol 2).2 (by decide),
   (calc_multiplicity_spec exampleMol 1).1 rfl⟩

/-- C5: Molecule.set_xyzs recomputes the distance matrix, the graph and the
bond count together from the new coordinates: afterwards n_bonds equals the
number of edges of the graph, and the graph and the distance matrix are the
ones computed from the new xyzs (no stale state), for every choice of the
external graph/distance functions. -/
theorem set_xyzs_consistent
    (make_graph : List Xyz → Nat → Graph)
    (calc_distance_matrix : List Xyz → List (List Rat))
    (m : Molecule) (xyzs : List Xyz) :
    (m.set_xyzs make_graph calc_distance_matrix xyzs).n_bonds
      = (m.set_xyzs make_graph calc_distance_matrix xyzs).graph.number_of_edges ∧
    (m.set_xyzs make_graph calc_distance_matrix xyzs).graph
      = make_graph xyzs m.n_atoms ∧
    (m.set_xyzs make_graph calc_distance_matrix xyzs).distance_matrix
      = calc_distance_matrix xyzs ∧
    (m.set_xyzs make_graph calc_distance_matrix xyzs).xyzs = xyzs :=
  ⟨rfl, rfl, rfl, rfl⟩

/-- Membership in get_possible_forming_bonds, characterised. -/
theorem mem_forming_iff (m : Molecule) (a b : Nat) :
    (a, b) ∈ m.get_possible_forming_bonds ↔
      (a < m.n_atoms ∧ b < m.n_atoms ∧ a < b ∧
       (a, b) ∉ m.graph.edge_pairs ∧ (b, a) ∉ m.graph.edge_pairs) := by
  simp only [Molecule.get_possible_forming_bonds, List.mem_flatMap, List.mem_map,
    List.mem_filter, List.mem_range, decide_eq_true_eq, Prod.mk.injEq]
  constructor
  · rintro ⟨i, hi, j, ⟨hjn, hij, hnab, hnba⟩, rfl, rfl⟩
    exact ⟨hi, hjn, hij, hnab, hnba⟩
  · rintro ⟨ha, hb, hab, hnab, hnba⟩
    exact ⟨a, ha, b, ⟨hb, hab, hnab, hnba⟩, rfl, rfl⟩

/-- C10: for a graph whose edges join distinct indices below n_atoms, every
unordered pair (i, j) with i < j of atom indices appears, up to orientation,
in exactly one of get_possible_forming_bonds and
get_possible_breaking_bonds: among the forming bonds exactly when neither
orientation is an edge of the graph, and among the breaking bonds exactly
when one is. -/
theorem forming_breaking_partition (m : Molecule)
    (hE : ∀ e ∈ m.graph.edges, e.u ≠ e.v ∧ e.u < m.n_atoms ∧ e.v < m.n_atoms)
    (i j : Nat) (hij : i < j) (hj : j < m.n_atoms) :
    (((i, j) ∈ m.get_possible_forming_bonds ∨ (j, i) ∈ m.get_possible_forming_bonds)
      ↔ ¬((i, j) ∈ m.graph.edge_pairs ∨ (j, i) ∈ m.graph.edge_pairs))
    ∧ (((i, j) ∈ m.get_possible_breaking_bonds ∨ (j, i) ∈ m.get_possible_breaking_bonds)
      ↔ ((i, j) ∈ m.graph.edge_pairs ∨ (j, i) ∈ m.graph.edge_pairs)) := by
  have hi : i < m.n_atoms := lt_trans hij hj
  constructor
  · constructor
    · rintro (hmem | hmem)
      · rcases (mem_forming_iff m i j).1 hmem with ⟨_, _, _, hnab, hnba⟩
        rintro (h | h)
        · exact hnab h
        · exact hnba h
      · rcases (mem_forming_iff m j i).1 hmem with ⟨_, _, hji, _, _⟩
        exact absurd hij (lt_asymm hji)
    · intro hnot
      exact Or.inl ((mem_forming_iff m i j).2
        ⟨hi, hj, hij, fun h => hnot (Or.inl h), fun h => hnot (Or.inr h)⟩)
  · exact Iff.rfl

/-- Witness for C10: the two-atom molecule with the single bond (0, 1),
instantiated at the pair (0, 1). -/
theorem forming_breaking_partition_witness :
    (((0, 1) ∈ exampleMol.get_possible_forming_bonds ∨
      (1, 0) ∈ exampleMol.get_possible_forming_bonds)
      ↔ ¬((0, 1) ∈ exampleMol.graph.edge_pairs ∨
          (1, 0) ∈ exampleMol.graph.edge_pairs))
    ∧ (((0, 1) ∈ exampleMol.get_possible_breaking_bonds ∨
        (1, 0) ∈ exampleMol.get_possible_breaking_bonds)
      ↔ ((0, 1) ∈ exampleMol.graph.edge_pairs ∨
         (1, 0) ∈ exampleMol.graph.edge_pairs)) :=
  forming_breaking_partition exampleMol (by decide) 0 1 (by decide) (by decide)

/-- C6: in the reasonable-embedding branch of Molecule._init_smiles, a
mismatch between the declared rdkit bond count and the number of edges of
the graph built from the geometry is fatal: the initialisation aborts
instead of continuing with the inconsistent graph. -/
theorem smiles_graph_disagreement_fatal
    (make_graph : List Xyz → Nat → Graph)
    (calc_distance_matrix : List Xyz → List (List Rat))
    (simanl_xyzs : List Xyz) (m : Molecule)
    (hmismatch : m.n_bonds ≠ (make_graph m.xyzs m.n_atoms).number_of_edges) :
    init_smiles_graph_step make_graph calc_distance_matrix true simanl_xyzs m = none := by
  simp [init_smiles_graph_step, check_rdkit_graph_agreement, hmismatch]

/-- Witness for C6: a graph builder returning an empty graph against a
declared bond count of one aborts the initialisation. -/
theorem smiles_graph_disagreement_fatal_witness :
    init_smiles_graph_step (fun _ _ => { edges := [] }) (fun _ => []) true [] exampleMol
      = none :=
  smiles_graph_disagreement_fatal _ _ _ _ (by decide)

/-- C7: Molecule.generate_conformers takes its coordinate sets from the
deduplicated rdkit embeddings exactly when rdkit_conf_gen_is_fine holds and
from the simulated-annealing generator otherwise; every coordinate set
becomes one Conformer sharing the molecule's name (as the prefix of the
conformer name), solvent, charge and multiplicity with no energy assigned,
and n_conformers is the number of conformers produced. -/
theorem generate_conformers_spec
    (rdkit_conf_xyzs simanl_conf_xyzs : List (List Xyz)) (m : Molecule) :
    (m.rdkit_conf_gen_is_fine = true →
      (m.generate_conformers rdkit_conf_xyzs simanl_conf_xyzs).conformers
        = conformers_from_xyzs m rdkit_conf_xyzs) ∧
    (m.rdkit_conf_gen_is_fine = false →
      (m.generate_conformers rdkit_conf_xyzs simanl_conf_xyzs).conformers
        = conformers_from_xyzs m simanl_conf_xyzs) ∧
    (m.generate_conformers rdkit_conf_xyzs simanl_conf_xyzs).n_conformers
      = (m.generate_conformers rdkit_conf_xyzs simanl_conf_xyzs).conformers.length ∧
    (∀ c ∈ (m.generate_conformers rdkit_conf_xyzs simanl_conf_xyzs).conformers,
      c.solvent = m.solvent ∧ c.charge = m.charge ∧ c.mult = m.mult ∧
      c.energy = none ∧
      ∃ i : Nat, c.name = m.name ++ "_conf" ++ toString i) := by
  refine ⟨?_, ?_, rfl, ?_⟩
  · intro h
    simp [Molecule.generate_conformers, h]
  · intro h
    simp [Molecule.generate_conformers, h]
  · intro c hc
    simp only [Molecule.generate_conformers, conformers_from_xyzs, List.mem_map,
      List.mem_range] at hc
    obtain ⟨i, _, rfl⟩ := hc
    exact ⟨rfl, rfl, rfl, rfl, i, rfl⟩

/-- Witness for C7: the example molecule with a fine rdkit embedding takes
the rdkit coordinate sets. -/
theorem generate_conformers_spec_witness :
    (exampleMol.generate_conformers [[("H", 0, 0, 0)]] []).conformers
      = conformers_from_xyzs exampleMol [[("H", 0, 0, 0)]] :=
  (generate_conformers_spec [[("H", 0, 0, 0)]] [] exampleMol).1 rfl

/-- C2: when both sides balance and the solvents agree, a strictly larger
total bond count on the product side swaps the reactant and product roles at
construction: the reacs accessor of the constructed Reaction yields the
original products and the prods accessor the original reactants, and the
Reaction value keeps that orientation. -/
theorem reaction_role_swap (reacs prods : List RMol)
    (hc : totalCharge reacs = totalCharge prods)
    (ha : totalAtoms reacs = totalAtoms prods)
    (hs : solventsMatch (reacs ++ prods) = true)
    (hb : totalBonds reacs < totalBonds prods) :
    mkReaction reacs prods = .ok { reacs := prods, prods := reacs } := by
  simp [mkReaction, hc, ha, hs, hb]

/-- Witness for C2, the instance of test_check_rearrangement: linear H3
(no bonds) reacting to trigonal H3 (three bonds) gets its roles swapped, so
the first reactant is the trigonal species. -/
theorem reaction_role_swap_witness :
    mkReaction [linH3] [trigH3] = .ok { reacs := [trigH3], prods := [linH3] } ∧
    (Reaction.mk [trigH3] [linH3]).reacs.map RMol.name = ["h3_trigonal"] :=
  ⟨reaction_role_swap [linH3] [trigH3] (by decide) (by decide) (by decide) (by decide),
   rfl⟩

/-- The energy sum of a side whose energies are all assigned. -/
theorem sumEnergies_assigned (ms : List RMol)
    (h : ∀ m ∈ ms, m.energy.isSome = true) :
    sumEnergies ms = some ((ms.map (fun m => m.energy.getD 0)).sum) := by
  induction ms with
  | nil => rfl
  | cons m rest ih =>
    have hm : m.energy.isSome = true := h m (List.mem_cons_self m rest)
    obtain ⟨e, he⟩ := Option.isSome_iff_exists.1 hm
    have hrest := ih (fun x hx => h x (List.mem_cons_of_mem m hx))
    simp [sumEnergies, he, hrest]

/-- C3: when every reactant and product has an assigned energy,
calc_delta_e is the sum of the product energies minus the sum of the
reactant energies, computed in Hartree; in particular reactant energies
-1/2 and -1/2 with product energy -1 give a delta within 1e-6 of 0. -/
theorem calc_delta_e_correct (reacs prods : List RMol)
    (h : ∀ m ∈ reacs ++ prods, m.energy.isSome = true) :
    calc_delta_e { reacs := reacs, prods := prods }
      = some ((prods.map (fun m => m.energy.getD 0)).sum
          - (reacs.map (fun m => m.energy.getD 0)).sum) ∧
    (∀ d : Rat,
      calc_delta_e { reacs := [hAtom (-1/2), hAtom (-1/2)], prods := [hhMol (-1)] }
          = some d →
      |d - 0| ≤ 1 / 1000000) := by
  constructor
  · have hr := sumEnergies_assigned reacs
      (fun x hx => h x (List.mem_append_left _ hx))
    have hp := sumEnergies_assigned prods
      (fun x hx => h x (List.mem_append_right _ hx))
    simp [calc_delta_e, hr, hp]
  · intro d hd
    have hval : calc_delta_e
        { reacs := [hAtom (-1/2), hAtom (-1/2)], prods := [hhMol (-1)] }
        = some 0 := by
      simp [calc_delta_e, sumEnergies, hAtom, hhMol]
    rw [hval] at hd
    cases hd
    norm_num

/-- Witness for C3: the concrete reaction of the claim, with both
conjuncts of the theorem instantiated. -/
theorem calc_delta_e_correct_witness :
    ∃ d : Rat,
      calc_delta_e { reacs := [hAtom (-1/2), hAtom (-1/2)], prods := [hhMol (-1)] }
        = some d ∧ |d - 0| ≤ 1 / 1000000 := by
  have h := calc_delta_e_correct [hAtom (-1/2), hAtom (-1/2)] [hhMol (-1)] (by decide)
  exact ⟨_, h.1, h.2 _ h.1⟩

/-- C4: Reaction construction validates before anything else: a charge or
atom-multiset imbalance yields the UnbalancedReaction error; with balanced
sides, inconsistent solvents yield the SolventsDontMatch error; in either
case construction produces no Reaction value. -/
theorem reaction_validation (reacs prods : List RMol) :
    ((totalCharge reacs ≠ totalCharge prods ∨ totalAtoms reacs ≠ totalAtoms prods) →
      mkReaction reacs prods = .error .unbalancedReaction) ∧
    (totalCharge reacs = totalCharge prods → totalAtoms reacs = totalAtoms prods →
      solventsMatch (reacs ++ prods) = false →
      mkReaction reacs prods = .error .solventsDontMatch) ∧
    (∀ r : Reaction, mkReaction reacs prods = .ok r →
      totalCharge reacs = totalCharge prods ∧ totalAtoms reacs = totalAtoms prods ∧
      solventsMatch (reacs ++ prods) = true) := by
  refine ⟨?_, ?_, ?_⟩
  · intro h
    simp [mkReaction, h]
  · intro hc ha hs
    simp [mkReaction, hc, ha, hs]
  · intro r hr
    by_cases hbal : totalCharge reacs ≠ totalCharge prods ∨ totalAtoms reacs ≠ totalAtoms prods
    · simp [mkReaction, hbal] at hr
    · push_neg at hbal
      by_cases hs : solventsMatch (reacs ++ prods) = true
      · exact ⟨hbal.1, hbal.2, hs⟩
      · rw [mkReaction, if_neg (by push_neg; exact hbal), if_pos hs] at hr
        cases hr

/-- Witness for C4: an atom-count imbalance (H to H2) raises
UnbalancedReaction, and balanced molecules in water against a product in
thf raise SolventsDontMatch. -/
theorem reaction_validation_witness :
    mkReaction [hAtom 0] [hhMol 0] = .error .unbalancedReaction ∧
    mkReaction
      [{ hAtom 0 with solvent := some "water" },
       { hAtom 0 with solvent := some "water" }]
      [{ hhMol 0 with solvent := some "thf" }] = .error .solventsDontMatch :=
  ⟨(reaction_validation [hAtom 0] [hhMol 0]).1 (by decide),
   (reaction_validation _ _).2.1 (by decide) (by decide) (by decide)⟩

/-- C1 (code bug): the claimed deduplication law fails on the program.  The
inner loop of strip_non_unique_confs, molecule.py line 115, compares the
scanned conformer against `self.conformers[j]` for j below the number of
retained conformers -- a prefix of the ORIGINAL conformer list -- although
its loop bound `len(unique_conformers)` shows the retained conformers were
meant.  On energies [0, 1, 3, 4] with d_e = 2 (threshold 2 kJ/mol over a
conversion constant of 1) the program retains [0, 3, 4]: the energy 4 is
compared against the dropped energy 1 instead of the retained energy 3,
whose window it falls in.  The greedy retention of the claim keeps [0, 3].
Both evaluations are proved, and the two results differ. -/
theorem strip_non_unique_confs_prefix_bug :
    (strip_confs 1 2 [confE 0, confE 1, confE 3, confE 4]).map Conformer.e
        = [0, 3, 4] ∧
    (({ exampleMol with conformers := [confE 0, confE 1, confE 3, confE 4] } :
        Molecule).strip_non_unique_confs 1 2).conformers.map Conformer.e
        = [0, 3, 4] ∧
    greedy_retained (2 / 1) [0] [1, 3, 4] = [0, 3] ∧
    (strip_confs 1 2 [confE 0, confE 1, confE 3, confE 4]).map Conformer.e
        ≠ greedy_retained (2 / 1) [0] [1, 3, 4] := by
  have h10 : in_energy_window 2 (1 : Rat) 0 = true := by
    simp only [in_energy_window, Bool.and_eq_true, decide_eq_true_eq]
    constructor <;> norm_num
  have h30 : in_energy_window 2 (3 : Rat) 0 = false := by
    rw [in_energy_window,
      show decide ((3 : Rat) - 2 < 0) = false from by
        rw [decide_eq_false_iff_not]; norm_num,
      Bool.false_and]
  have h40 : in_energy_window 2 (4 : Rat) 0 = false := by
    rw [in_energy_window,
      show decide ((4 : Rat) - 2 < 0) = false from by
        rw [decide_eq_false_iff_not]; norm_num,
      Bool.false_and]
  have h41 : in_energy_window 2 (4 : Rat) 1 = false := by
    rw [in_energy_window,
      show decide ((4 : Rat) - 2 < 1) = false from by
        rw [decide_eq_false_iff_not]; norm_num,
      Bool.false_and]
  have hstrip : (strip_confs 1 2 [confE 0, confE 1, confE 3, confE 4]).map Conformer.e
      = [0, 3, 4] := by
    simp [strip_confs, strip_step, confE, Conformer.e, h10, h30, h40, h41]
  have habs10 : |(1 : Rat) - 0| = 1 := by
    rw [abs_of_nonneg (by norm_num : (0 : Rat) ≤ (1 : Rat) - 0)]
    norm_num
  have habs30 : |(3 : Rat) - 0| = 3 := by
    rw [abs_of_nonneg (by norm_num : (0 : Rat) ≤ (3 : Rat) - 0)]
    norm_num
  have habs40 : |(4 : Rat) - 0| = 4 := by
    rw [abs_of_nonneg (by norm_num : (0 : Rat) ≤ (4 : Rat) - 0)]
    norm_num
  have habs43 : |(4 : Rat) - 3| = 1 := by
    rw [abs_of_nonneg (by norm_num : (0 : Rat) ≤ (4 : Rat) - 3)]
    norm_num
  have hgreedy : greedy_retained ((2 : Rat) / 1) [0] [1, 3, 4] = [0, 3] := by
    norm_num [greedy_retained, habs10, habs30, habs40, habs43]
  refine ⟨hstrip, ?_, hgreedy, ?_⟩
  · rw [show (({ exampleMol with conformers := [confE 0, confE 1, confE 3, confE 4] } :
        Molecule).strip_non_unique_confs 1 2).conformers
        = strip_confs 1 2 [confE 0, confE 1, confE 3, confE 4] from rfl]
    exact hstrip
  · rw [hstrip, hgreedy]
    simp

/-- edgeMono is reflexive. -/
theorem edgeMono_rfl (e : Edge) : edgeMono e e := ⟨rfl, rfl, fun h => h⟩

/-- edgeMono is transitive. -/
theorem edgeMono_trans {e f g : Edge} (h1 : edgeMono e f) (h2 : edgeMono f g) :
    edgeMono e g :=
  ⟨h2.1.trans h1.1, h2.2.1.trans h1.2.1, fun h => h2.2.2 (h1.2.2 h)⟩

/-- Pointwise monotone refinement carries each original edge to a refined
one. -/
theorem forall₂_exists_right {a b : List Edge} (h : List.Forall₂ edgeMono a b) :
    ∀ e ∈ a, ∃ f ∈ b, edgeMono e f := by
  induction h with
  | nil =>
    intro e he
    cases he
  | cons hef t ih =>
    intro e he
    rcases List.mem_cons.1 he with rfl | he
    · exact ⟨_, List.mem_cons_self _ _, hef⟩
    · obtain ⟨f, hf, hm⟩ := ih e he
      exact ⟨f, List.mem_cons_of_mem _ hf, hm⟩

/-- Pointwise monotone refinement keeps a list of active edges active. -/
theorem forall₂_active {a b : List Edge} (h : List.Forall₂ edgeMono a b)
    (ha : ∀ e ∈ a, e.active = true) : ∀ e ∈ b, e.active = true := by
  induction h with
  | nil =>
    intro e he
    cases he
  | cons hef t ih =>
    intro e he
    rcases List.mem_cons.1 he with rfl | he
    · exact hef.2.2 (ha _ (List.mem_cons_self _ _))
    · exact ih (fun x hx => ha x (List.mem_cons_of_mem _ hx)) e he

/-- Pointwise monotone refinement composes. -/
theorem forall₂_edgeMono_trans {a b c : List Edge}
    (h1 : List.Forall₂ edgeMono a b) (h2 : List.Forall₂ edgeMono b c) :
    List.Forall₂ edgeMono a c := by
  induction h1 generalizing c with
  | nil =>
    cases h2
    exact List.Forall₂.nil
  | cons hab t ih =>
    cases h2 with
    | cons hbc t2 => exact List.Forall₂.cons (edgeMono_trans hab hbc) (ih t2)

/-- The evolves relation is reflexive. -/
theorem evolves_refl (es : List Edge) : evolves es es :=
  ⟨es, [], by simp, List.forall₂_same.2 (fun e _ => edgeMono_rfl e),
   fun e he => by cases he⟩

/-- The evolves relation composes. -/
theorem evolves_trans {es fs gs : List Edge} (h1 : evolves es fs)
    (h2 : evolves fs gs) : evolves es gs := by
  obtain ⟨f1, x1, rfl, hf1, hx1⟩ := h1
  obtain ⟨f2, x2, rfl, hf2, hx2⟩ := h2
  have htake : List.Forall₂ edgeMono f1 (f2.take f1.length) := by
    have h := List.forall₂_take f1.length hf2
    rwa [List.take_left] at h
  have hdrop : List.Forall₂ edgeMono x1 (f2.drop f1.length) := by
    have h := List.forall₂_drop f1.length hf2
    rwa [List.drop_left] at h
  refine ⟨f2.take f1.length, f2.drop f1.length ++ x2, ?_,
    forall₂_edgeMono_trans hf1 htake, ?_⟩
  · rw [← List.append_assoc, List.take_append_drop]
  · intro e he
    rcases List.mem_append.1 he with he | he
    · exact forall₂_active hdrop hx1 e he
    · exact hx2 e he

/-- Each markBond step is an evolution of the edge list: the original edges
keep their endpoints with flags only raised, appended edges are active. -/
theorem markBond_evolves (es : List Edge) (b : Nat × Nat) :
    evolves es (markBond es b) := by
  simp only [markBond]
  split
  · refine ⟨es.map (fun e => if edgeMatches e b then { e with active := true } else e),
      [], by simp, ?_, fun e he => by cases he⟩
    rw [List.forall₂_map_right_iff]
    refine List.forall₂_same.2 (fun e _ => ?_)
    by_cases hm : edgeMatches e b = true
    · rw [if_pos hm]
      exact ⟨rfl, rfl, fun _ => rfl⟩
    · rw [if_neg hm]
      exact edgeMono_rfl e
  · exact ⟨es, [{ u := b.1, v := b.2, active := true }], rfl,
      List.forall₂_same.2 (fun e _ => edgeMono_rfl e),
      fun e he => by simp at he; rw [he]⟩

/-- After markBond processes a bond, some edge coincides with it (up to
orientation) and is active. -/
theorem markBond_marks (es : List Edge) (b : Nat × Nat) :
    ∃ e ∈ markBond es b, edgeMatches e b = true ∧ e.active = true := by
  simp only [markBond]
  split
  next h =>
    obtain ⟨e, he, hm⟩ := List.any_eq_true.1 h
    refine ⟨{ e with active := true }, ?_, ?_, rfl⟩
    · have himg : (fun e => if edgeMatches e b then { e with active := true } else e) e
          = { e with active := true } := by simp [hm]
      rw [← himg]
      exact List.mem_map_of_mem _ he
    · exact hm
  next h =>
    refine ⟨{ u := b.1, v := b.2, active := true }, ?_, ?_, rfl⟩
    · simp
    · obtain ⟨b1, b2⟩ := b
      simp [edgeMatches]

/-- An evolution keeps the existence of an active edge coinciding with a
given bond. -/
theorem evolves_keeps_match {es gs : List Edge} (h : evolves es gs)
    (b : Nat × Nat)
    (hex : ∃ e ∈ es, edgeMatches e b = true ∧ e.active = true) :
    ∃ e ∈ gs, edgeMatches e b = true ∧ e.active = true := by
  obtain ⟨front, ext, rfl, hf, hx⟩ := h
  obtain ⟨e, he, hm, ha⟩ := hex
  obtain ⟨f, hfmem, hmono⟩ := forall₂_exists_right hf e he
  refine ⟨f, List.mem_append_left _ hfmem, ?_, hmono.2.2 ha⟩
  rw [show edgeMatches f b = edgeMatches e b from by
    simp [edgeMatches, hmono.1, hmono.2.1]]
  exact hm

/-- The whole bond loop of get_active_mol_graph is an evolution of the edge
list. -/
theorem foldl_markBond_evolves (bonds : List (Nat × Nat)) :
    ∀ es : List Edge, evolves es (bonds.foldl markBond es) := by
  induction bonds with
  | nil => exact fun es => evolves_refl es
  | cons b bonds ih =>
    intro es
    simp only [List.foldl_cons]
    exact evolves_trans (markBond_evolves es b) (ih (markBond es b))

/-- After the bond loop, every processed bond coincides with an active edge
of the result. -/
theorem foldl_markBond_covers (bonds : List (Nat × Nat)) :
    ∀ es : List Edge, ∀ b ∈ bonds,
      ∃ e ∈ bonds.foldl markBond es, edgeMatches e b = true ∧ e.active = true := by
  induction bonds with
  | nil =>
    intro es b hb
    cases hb
  | cons b0 bonds ih =>
    intro es b hb
    simp only [List.foldl_cons]
    rcases List.mem_cons.1 hb with rfl | hb
    · exact evolves_keeps_match (foldl_markBond_evolves bonds (markBond es b)) b
        (markBond_marks es b)
    · exact ih (markBond es b0) b hb

/-- C8: get_active_mol_graph returns a graph in which every supplied bond
coincides, up to orientation, with an edge flagged active; the molecule's
own graph is untouched (the operation builds a new graph): the result is the
original edges, endpoints unchanged and active flags only ever raised, with
the newly created active edges appended. -/
theorem get_active_mol_graph_spec (m : Molecule) (active_bonds : List (Nat × Nat)) :
    (∀ b ∈ active_bonds,
      ∃ e ∈ (m.get_active_mol_graph active_bonds).edges,
        edgeMatches e b = true ∧ e.active = true) ∧
    (∃ front ext, (m.get_active_mol_graph active_bonds).edges = front ++ ext ∧
      List.Forall₂ edgeMono m.graph.edges front ∧ ∀ e ∈ ext, e.active = true) :=
  ⟨fun b hb => foldl_markBond_covers active_bonds m.graph.edges b hb,
   foldl_markBond_evolves active_bonds m.graph.edges⟩

/-- Witness for C8: marking the existing bond in reversed orientation and a
new hypothetical bond on the two-atom molecule yields an active edge for the
reversed pair. -/
theorem get_active_mol_graph_spec_witness :
    ∃ e ∈ (exampleMol.get_active_mol_graph [(1, 0), (0, 2)]).edges,
      edgeMatches e (1, 0) = true ∧ e.active = true :=
  (get_active_mol_graph_spec exampleMol [(1, 0), (0, 2)]).1 (1, 0) (by decide)

end AutodE
